import Mathlib

/-!
Verification of the k8s-resource-analyzer core algorithms.

Python strings are modelled as `List Char`, floats as `ℚ`, ints as `ℤ`/`ℕ`.
Fallible parsing (Python `try`/`except`) is modelled with `Option` and an
explicit zero fallback.
-/

/-- Convert a Lean string literal to the `List Char` representation used
throughout the development. -/
def toL (s : String) : List Char := s.toList

/-- Python `str.endswith`. -/
def endswith (l suf : List Char) : Bool := suf.reverse.isPrefixOf l.reverse

/-- Python slice `s[:-n]`: drop the last `n` characters. -/
def takeBut (n : Nat) (l : List Char) : List Char := l.take (l.length - n)

/-- Numeric value of a run of decimal digit characters. -/
def digitsToNat (l : List Char) : Nat := l.foldl (fun a c => 10 * a + (c.toNat - 48)) 0

/-- `10 ^ e` for a possibly negative exponent, as a rational. -/
def pow10 (e : Int) : ℚ := if 0 ≤ e then (10 : ℚ) ^ e.toNat else 1 / (10 : ℚ) ^ (-e).toNat

/-- Exponent part of a float literal: optional sign followed by digits. -/
def parseExp? (s : List Char) : Option Int :=
  match s with
  | [] => none
  | c :: rest =>
    if c == '+' then
      if rest ≠ [] ∧ rest.all Char.isDigit then some (digitsToNat rest) else none
    else if c == '-' then
      if rest ≠ [] ∧ rest.all Char.isDigit then some (-(digitsToNat rest : Int)) else none
    else if (c :: rest).all Char.isDigit then some (digitsToNat (c :: rest)) else none

/-- Mantissa of a float literal: digits with an optional fractional part.
Returns the value and the unconsumed remainder of the input. -/
def parseMantissa? (s : List Char) : Option (ℚ × List Char) :=
  let ip := s.takeWhile Char.isDigit
  let s1 := s.dropWhile Char.isDigit
  match s1 with
  | [] => if ip = [] then none else some ((digitsToNat ip : ℚ), [])
  | c :: s2 =>
    if c == '.' then
      let fp := s2.takeWhile Char.isDigit
      let s3 := s2.dropWhile Char.isDigit
      if ip = [] ∧ fp = [] then none
      else some ((digitsToNat ip : ℚ) + (digitsToNat fp : ℚ) / 10 ^ fp.length, s3)
    else if ip = [] then none else some ((digitsToNat ip : ℚ), c :: s2)

/-- Rational-valued model of Python `float(str)`: optional sign, decimal
mantissa, optional exponent.  (Whitespace, underscores, `inf` and `nan`
are not modelled; `none` plays the role of `ValueError`.) -/
def parseFloat? (s : List Char) : Option ℚ :=
  let p : ℚ × List Char :=
    match s with
    | [] => (1, [])
    | c :: rest => if c == '+' then (1, rest) else if c == '-' then (-1, rest) else (1, c :: rest)
  match parseMantissa? p.2 with
  | none => none
  | some (m, rest) =>
    match rest with
    | [] => some (p.1 * m)
    | c :: es =>
      if c == 'e' || c == 'E' then (parseExp? es).map (fun e => p.1 * m * pow10 e) else none

/-- Python `int(float)`: truncation toward zero. -/
def pyInt (q : ℚ) : Int := if 0 ≤ q then ⌊q⌋ else ⌈q⌉

/-- `float(s)` guarded by the enclosing `try`/`except: return 0` of the
source parsers, post-composed with `k`. -/
def floatOr0 (s : List Char) (k : ℚ → ℚ) : ℚ :=
  match parseFloat? s with
  | some v => k v
  | none => 0

/-- `int(k(float(s)))` guarded by the enclosing `try`/`except: return 0`. -/
def intOr0 (s : List Char) (k : ℚ → ℚ) : Int :=
  match parseFloat? s with
  | some v => pyInt (k v)
  | none => 0

/-- `K8sClient._parse_cpu` (src/app/k8s_client.py:154-162). -/
def _parse_cpu (s : List Char) : ℚ :=
  if s = [] ∨ s = ['0'] then 0
  else if endswith s ['m'] then floatOr0 (takeBut 1 s) (fun v => v / 1000)
  else floatOr0 s (fun v => v)

/-- `K8sClient._parse_memory` (src/app/k8s_client.py:164-185). -/
def _parse_memory (s : List Char) : ℚ :=
  if s = [] ∨ s = ['0'] then 0
  else if endswith s ['K', 'i'] then floatOr0 (takeBut 2 s) (fun v => v / 1024 / 1024)
  else if endswith s ['M', 'i'] then floatOr0 (takeBut 2 s) (fun v => v / 1024)
  else if endswith s ['G', 'i'] then floatOr0 (takeBut 2 s) (fun v => v)
  else if endswith s ['T', 'i'] then floatOr0 (takeBut 2 s) (fun v => v * 1024)
  else if endswith s ['K'] then floatOr0 (takeBut 1 s) (fun v => v / 1000 / 1024)
  else if endswith s ['M'] then floatOr0 (takeBut 1 s) (fun v => v / 1000)
  else if endswith s ['G'] then floatOr0 (takeBut 1 s) (fun v => v)
  else floatOr0 s (fun v => v / 1024 / 1024 / 1024)

/-- `K8sClient._parse_storage` (src/app/k8s_client.py:271-293). -/
def _parse_storage (s : List Char) : ℚ :=
  if s = [] ∨ s = ['0'] then 0
  else if endswith s ['K', 'i'] then floatOr0 (takeBut 2 s) (fun v => v / 1024 / 1024)
  else if endswith s ['M', 'i'] then floatOr0 (takeBut 2 s) (fun v => v / 1024)
  else if endswith s ['G', 'i'] then floatOr0 (takeBut 2 s) (fun v => v)
  else if endswith s ['T', 'i'] then floatOr0 (takeBut 2 s) (fun v => v * 1024)
  else if endswith s ['K'] then floatOr0 (takeBut 1 s) (fun v => v / 1000 / 1024)
  else if endswith s ['M'] then floatOr0 (takeBut 1 s) (fun v => v / 1000)
  else if endswith s ['G'] then floatOr0 (takeBut 1 s) (fun v => v)
  else floatOr0 s (fun v => v / 1024 / 1024 / 1024)

/-- `K8sClient._parse_quantity` (src/app/k8s_client.py:243-269). -/
def _parse_quantity (s : List Char) : Int :=
  if s = [] ∨ s = ['0'] then 0
  else if endswith s ['k'] then intOr0 (takeBut 1 s) (fun v => v * 1000)
  else if endswith s ['m'] then intOr0 (takeBut 1 s) (fun v => v / 1000)
  else if endswith s ['K', 'i'] then intOr0 (takeBut 2 s) (fun v => v * 1024)
  else if endswith s ['M', 'i'] then intOr0 (takeBut 2 s) (fun v => v)
  else if endswith s ['G', 'i'] then intOr0 (takeBut 2 s) (fun v => v * 1024)
  else if endswith s ['T', 'i'] then intOr0 (takeBut 2 s) (fun v => v * 1024 * 1024)
  else if endswith s ['K'] then intOr0 (takeBut 1 s) (fun v => v * 1000)
  else if endswith s ['M'] then intOr0 (takeBut 1 s) (fun v => v * 1000 * 1000)
  else if endswith s ['G'] then intOr0 (takeBut 1 s) (fun v => v * 1000 * 1000 * 1000)
  else intOr0 s (fun v => v)


/-- The string that `_parse_cpu` passes to `float` (the argument of its one
`float` call, as selected by the suffix tests). -/
def cpuNumericPart (s : List Char) : List Char :=
  if endswith s ['m'] then takeBut 1 s else s

/-- The string that `_parse_memory` passes to `float`. -/
def memNumericPart (s : List Char) : List Char :=
  if endswith s ['K', 'i'] then takeBut 2 s
  else if endswith s ['M', 'i'] then takeBut 2 s
  else if endswith s ['G', 'i'] then takeBut 2 s
  else if endswith s ['T', 'i'] then takeBut 2 s
  else if endswith s ['K'] then takeBut 1 s
  else if endswith s ['M'] then takeBut 1 s
  else if endswith s ['G'] then takeBut 1 s
  else s

/-- The string that `_parse_storage` passes to `float`. -/
def storageNumericPart (s : List Char) : List Char :=
  if endswith s ['K', 'i'] then takeBut 2 s
  else if endswith s ['M', 'i'] then takeBut 2 s
  else if endswith s ['G', 'i'] then takeBut 2 s
  else if endswith s ['T', 'i'] then takeBut 2 s
  else if endswith s ['K'] then takeBut 1 s
  else if endswith s ['M'] then takeBut 1 s
  else if endswith s ['G'] then takeBut 1 s
  else s

/-- The string that `_parse_quantity` passes to `float`. -/
def countNumericPart (s : List Char) : List Char :=
  if endswith s ['k'] then takeBut 1 s
  else if endswith s ['m'] then takeBut 1 s
  else if endswith s ['K', 'i'] then takeBut 2 s
  else if endswith s ['M', 'i'] then takeBut 2 s
  else if endswith s ['G', 'i'] then takeBut 2 s
  else if endswith s ['T', 'i'] then takeBut 2 s
  else if endswith s ['K'] then takeBut 1 s
  else if endswith s ['M'] then takeBut 1 s
  else if endswith s ['G'] then takeBut 1 s
  else s

/-- Python `str.split(sep)` (single-character separator, keeping empty
pieces), accumulator-based. -/
def splitOnAux (sep : Char) : List Char → List Char → List (List Char)
  | [], acc => [acc.reverse]
  | c :: rest, acc =>
    if c == sep then acc.reverse :: splitOnAux sep rest [] else splitOnAux sep rest (c :: acc)

/-- Python `s.split(sep)`. -/
def splitOn (sep : Char) (s : List Char) : List (List Char) := splitOnAux sep s []

/-- Python `sep.join(pieces)`. -/
def joinSep (sep : Char) : List (List Char) → List Char
  | [] => []
  | [p] => p
  | p :: ps => p ++ sep :: joinSep sep ps

/-- Python `str.isdigit` (ASCII digits; empty string is not a digit string). -/
def isdigitStr (l : List Char) : Bool := !l.isEmpty && l.all Char.isDigit

/-- `PrometheusClient._extract_workload_name` (src/app/prometheus_client.py:111-117). -/
def _extract_workload_name (s : List Char) : List Char :=
  let parts := splitOn '-' s
  if 2 ≤ parts.length then
    if isdigitStr (parts.getLastD []) then joinSep '-' parts.dropLast else s
  else s

/-- Modelled from the spec's wording of claim C6: split on `-`; if the last
segment is purely numeric the key is everything before that segment,
otherwise the full pod name. -/
def claimedWorkloadKey (s : List Char) : List Char :=
  let parts := splitOn '-' s
  if isdigitStr (parts.getLastD []) then joinSep '-' parts.dropLast else s

/-- The claim C6 rule amended with the `len(parts) >= 2` requirement that the
source imposes before inspecting the last segment. -/
def amendedWorkloadKey (s : List Char) : List Char :=
  let parts := splitOn '-' s
  if 2 ≤ parts.length ∧ isdigitStr (parts.getLastD []) then joinSep '-' parts.dropLast else s

section Dict

variable {κ α : Type} [DecidableEq κ]

/-- Python `dict` assignment `d[k] = v` on an insertion-ordered association
list: an existing key keeps its position and gets the new value, a new key
is appended at the end. -/
def dinsert (k : κ) (v : α) : List (κ × α) → List (κ × α)
  | [] => [(k, v)]
  | (k2, v2) :: rest => if k = k2 then (k2, v) :: rest else (k2, v2) :: dinsert k v rest

/-- Python `d.get(k)` on an insertion-ordered association list. -/
def dget : List (κ × α) → κ → Option α
  | [], _ => none
  | (k2, v) :: rest, k => if k = k2 then some v else dget rest k

end Dict

/-- Per-workload data accumulated by `_get_pod_peaks_by_workload`:
parallel lists of pod names, CPU peaks and Memory peaks (GiB). -/
structure WL where
  pods : List (List Char)
  cpu : List ℚ
  mem : List ℚ

/-- The `pod_cpu_peaks` dict built from the parsed rows (pod label, value)
of the CPU peak query result (src/app/prometheus_client.py:142-147);
rows with an empty pod label are skipped. -/
def podCpuPeaks (cpuRes : List (List Char × ℚ)) : List (List Char × ℚ) :=
  cpuRes.foldl (fun d e => if e.1 = [] then d else dinsert e.1 e.2 d) []

/-- The `pod_mem_peaks` dict built from the parsed rows of the Memory peak
query result; values are converted to GiB
(src/app/prometheus_client.py:149-154). -/
def podMemPeaks (memRes : List (List Char × ℚ)) : List (List Char × ℚ) :=
  memRes.foldl (fun d e => if e.1 = [] then d else dinsert e.1 (e.2 / (1024 * 1024 * 1024)) d) []

/-- One iteration of the grouping loop of `_get_pod_peaks_by_workload`:
append a pod and its peaks to its workload's entry (creating the entry at
the end of the dict if absent). -/
def wlAppend (w pod : List Char) (c m : ℚ) : List (List Char × WL) → List (List Char × WL)
  | [] => [(w, ⟨[pod], [c], [m]⟩)]
  | (k, d) :: rest =>
    if w = k then (k, ⟨d.pods ++ [pod], d.cpu ++ [c], d.mem ++ [m]⟩) :: rest
    else (k, d) :: wlAppend w pod c m rest

/-- `PrometheusClient._get_pod_peaks_by_workload`
(src/app/prometheus_client.py:119-165), modelled from the parsed rows of
the two Prometheus query results (the HTTP fetch is external I/O). -/
def _get_pod_peaks_by_workload (cpuRes memRes : List (List Char × ℚ)) : List (List Char × WL) :=
  let memPeaks := podMemPeaks memRes
  (podCpuPeaks cpuRes).foldl
    (fun wp e => wlAppend (_extract_workload_name e.1) e.1 e.2 ((dget memPeaks e.1).getD 0) wp) []

/-- Python `sorted(l, reverse=True)` on floats. -/
def sortDesc (l : List ℚ) : List ℚ := List.insertionSort (fun a b => a ≥ b) l

/-- One iteration of the workload loop of `_aggregate_by_replicas`
(src/app/prometheus_client.py:172-189).  `int(expected_replicas * 1.5)`
is `3 * expected_replicas / 2` in exact (floor) natural arithmetic. -/
def aggStep (workload_replicas : List (List Char × ℕ)) (acc : ℚ × ℚ) (e : List Char × WL) :
    ℚ × ℚ :=
  let cpu_values := sortDesc e.2.cpu
  let mem_values := sortDesc e.2.mem
  let pod_count := cpu_values.length
  let expected0 := (dget workload_replicas e.1).getD 0
  let expected_replicas := if expected0 = 0 then pod_count else expected0
  let max_allowed := 3 * expected_replicas / 2
  let kept :=
    if max_allowed < pod_count then (cpu_values.take max_allowed, mem_values.take max_allowed)
    else (cpu_values, mem_values)
  (acc.1 + kept.1.sum, acc.2 + kept.2.sum)

/-- `PrometheusClient._aggregate_by_replicas`
(src/app/prometheus_client.py:167-191): total (CPU, Memory) over all
workload groups. -/
def _aggregate_by_replicas (workload_pods : List (List Char × WL))
    (workload_replicas : List (List Char × ℕ)) : ℚ × ℚ :=
  workload_pods.foldl (aggStep workload_replicas) (0, 0)

/-- Modelled from the spec: claim C1's `allowed` rule —
`allowed = floor(expected × 1.5)`, defaulting to the observed pod count
when the expected replica count is unknown or zero. -/
def specAllowed (expected pod_count : ℕ) : ℕ :=
  if expected = 0 then pod_count else 3 * expected / 2

/-- Modelled from the spec: one workload step of claim C1's aggregation
algorithm (sort each dimension descending, keep the top `specAllowed`
peaks when the observed pod count exceeds it, and sum). -/
def specAggStep (workload_replicas : List (List Char × ℕ)) (acc : ℚ × ℚ) (e : List Char × WL) :
    ℚ × ℚ :=
  let cpu_values := sortDesc e.2.cpu
  let mem_values := sortDesc e.2.mem
  let pod_count := cpu_values.length
  let allowed := specAllowed ((dget workload_replicas e.1).getD 0) pod_count
  let kept :=
    if allowed < pod_count then (cpu_values.take allowed, mem_values.take allowed)
    else (cpu_values, mem_values)
  (acc.1 + kept.1.sum, acc.2 + kept.2.sum)

/-- Modelled from the spec: claim C1's replica-aware aggregation. -/
def specAggregate (workload_pods : List (List Char × WL))
    (workload_replicas : List (List Char × ℕ)) : ℚ × ℚ :=
  workload_pods.foldl (specAggStep workload_replicas) (0, 0)

/-- Untruncated total of all CPU peaks in the workload groups. -/
def sumCpuAll (wp : List (List Char × WL)) : ℚ := (wp.map (fun e => e.2.cpu.sum)).sum

/-- Untruncated total of all Memory peaks in the workload groups. -/
def sumMemAll (wp : List (List Char × WL)) : ℚ := (wp.map (fun e => e.2.mem.sum)).sum

/-- `NamespaceUsageDetail` (src/app/models.py:105-115), restricted to the
fields produced by `get_namespace_usage_accurate` (`namespace` is a Lean
keyword, hence the field name `ns`). -/
structure NamespaceUsageDetail where
  ns : List Char
  project_name : List Char
  cpu_usage : ℚ
  memory_usage : ℚ

/-- `PrometheusClient.get_namespace_usage_accurate`
(src/app/prometheus_client.py:193-203), modelled from the parsed query
rows. -/
def get_namespace_usage_accurate (ns : List Char) (cpuRes memRes : List (List Char × ℚ))
    (workload_replicas : List (List Char × ℕ)) : NamespaceUsageDetail :=
  let workload_pods := _get_pod_peaks_by_workload cpuRes memRes
  let r := _aggregate_by_replicas workload_pods workload_replicas
  ⟨ns, [], r.1, r.2⟩

/-- `K8sClient.get_workload_replicas` (src/app/k8s_client.py:330-356),
modelled from the parsed deployment and statefulset items
(name, `spec.replicas`); items with an empty name are skipped. -/
def get_workload_replicas (deployments statefulsets : List (List Char × ℕ)) :
    List (List Char × ℕ) :=
  let d1 := deployments.foldl
    (fun m e => if e.1 = [] then m else dinsert (toL "deploy/" ++ e.1) e.2 m) []
  statefulsets.foldl (fun m e => if e.1 = [] then m else dinsert (toL "ss/" ++ e.1) e.2 m) d1

/-- `Quota` (src/app/models.py:6-10). -/
structure Quota where
  cloud_id : String
  project_name : String
  cpu_quota : ℚ
  memory_quota : ℚ

/-- `ProjectUsage` (src/app/models.py:25-31). -/
structure ProjectUsage where
  project_name : String
  cloud_id : Option String
  cpu_usage : ℚ
  memory_usage : ℚ
  cpu_rate : Option ℚ
  memory_rate : Option ℚ

/-- The body of `Calculator.calculate_rates` for one record
(src/app/calculator.py:32-50), with the storage lookup
`get_quota_by_project` passed in as an `Option`. -/
def calculate_rates_one (q? : Option Quota) (u : ProjectUsage) : ProjectUsage :=
  match q? with
  | some quota =>
    let u1 :=
      if 0 < quota.cpu_quota then
        { u with cpu_rate := some (min (u.cpu_usage / quota.cpu_quota * 100) 100) }
      else { u with cpu_rate := some 0 }
    let u2 :=
      if 0 < quota.memory_quota then
        { u1 with memory_rate := some (min (u1.memory_usage / quota.memory_quota * 100) 100) }
      else { u1 with memory_rate := some 0 }
    { u2 with cloud_id := some quota.cloud_id }
  | none => { u with cpu_rate := none, memory_rate := none, cloud_id := none }

/-- `Calculator.calculate_rates` (src/app/calculator.py:29-52) over a
collection of records, with the quota store as a lookup function. -/
def calculate_rates (lookup : String → Option Quota) (us : List ProjectUsage) :
    List ProjectUsage :=
  us.map (fun u => calculate_rates_one (lookup u.project_name) u)

/-- The in-place `+=` of `MemoryReportCache.add` on a found record
(src/app/storage.py:124-125). -/
def puAdd (v u : ProjectUsage) : ProjectUsage :=
  { v with cpu_usage := v.cpu_usage + u.cpu_usage, memory_usage := v.memory_usage + u.memory_usage }

/-- The dict comprehension `{u.project_name: u for u in existing}`
(src/app/storage.py:120). -/
def dictFromUsages (l : List ProjectUsage) : List (String × ProjectUsage) :=
  l.foldl (fun d u => dinsert u.project_name u d) []

/-- One iteration of the merge loop of `MemoryReportCache.add`
(src/app/storage.py:122-127): add into an existing record, else insert
at the end. -/
def mergeOne : List (String × ProjectUsage) → ProjectUsage → List (String × ProjectUsage)
  | [], u => [(u.project_name, u)]
  | (k, v) :: rest, u =>
    if u.project_name = k then (k, puAdd v u) :: rest else (k, v) :: mergeOne rest u

/-- `MemoryReportCache.add` (src/app/storage.py:118-129); the cache is the
insertion-ordered dict `date -> list of ProjectUsage`. -/
def cacheAdd (cache : List (String × List ProjectUsage)) (date : String)
    (usages : List ProjectUsage) : List (String × List ProjectUsage) :=
  let existing := (dget cache date).getD []
  let existing_dict := dictFromUsages existing
  let merged := usages.foldl mergeOne existing_dict
  dinsert date (merged.map (fun e => e.2)) cache

/-- Total stored CPU usage of a list of records. -/
def totalCpu (l : List ProjectUsage) : ℚ := (l.map (fun u => u.cpu_usage)).sum

/-- Total stored Memory usage of a list of records. -/
def totalMem (l : List ProjectUsage) : ℚ := (l.map (fun u => u.memory_usage)).sum

/-! ## Helper lemmas -/

lemma isPrefixOf_self_append (l t : List Char) : l.isPrefixOf (l ++ t) = true := by
  induction l with
  | nil => simp [List.isPrefixOf]
  | cons a as ih => simp [List.isPrefixOf, ih]

lemma endswith_append_self (s t : List Char) : endswith (s ++ t) t = true := by
  rw [endswith, List.reverse_append]
  exact isPrefixOf_self_append t.reverse s.reverse

lemma takeBut_append (s t : List Char) : takeBut t.length (s ++ t) = s := by
  rw [takeBut, List.length_append, Nat.add_sub_cancel]
  exact List.take_left s t

lemma takeBut_append2 (s : List Char) (a b : Char) : takeBut 2 (s ++ [a, b]) = s :=
  takeBut_append s [a, b]

lemma takeBut_append1 (s : List Char) (a : Char) : takeBut 1 (s ++ [a]) = s :=
  takeBut_append s [a]

lemma parseFloat?_ne_nil {s : List Char} {v : ℚ} (h : parseFloat? s = some v) : s ≠ [] := by
  intro hs
  subst hs
  simp [parseFloat?, parseMantissa?] at h

lemma floatOr0_some {s : List Char} {v : ℚ} (h : parseFloat? s = some v) (k : ℚ → ℚ) :
    floatOr0 s k = k v := by
  simp [floatOr0, h]

lemma floatOr0_none {s : List Char} (h : parseFloat? s = none) (k : ℚ → ℚ) :
    floatOr0 s k = 0 := by
  simp [floatOr0, h]

lemma intOr0_some {s : List Char} {v : ℚ} (h : parseFloat? s = some v) (k : ℚ → ℚ) :
    intOr0 s k = pyInt (k v) := by
  simp [intOr0, h]

lemma intOr0_none {s : List Char} (h : parseFloat? s = none) (k : ℚ → ℚ) :
    intOr0 s k = 0 := by
  simp [intOr0, h]

lemma append_guard2 (s : List Char) (a b : Char) : ¬(s ++ [a, b] = [] ∨ s ++ [a, b] = ['0']) := by
  intro h
  rcases h with h | h
  · exact absurd h (by simp)
  · have hl := congrArg List.length h
    simp at hl

lemma append_guard1 (s : List Char) (a : Char) (hs : s ≠ []) :
    ¬(s ++ [a] = [] ∨ s ++ [a] = ['0']) := by
  intro h
  rcases h with h | h
  · exact absurd h (by simp)
  · have hl := congrArg List.length h
    simp at hl
    exact hs hl

lemma endswith_all_digits_false {s : List Char} (hs : s ≠ []) (hall : s.all Char.isDigit = true)
    (suf : List Char) {x : Char} {xs : List Char} (hsuf : suf.reverse = x :: xs)
    (hx : x.isDigit = false) : endswith s suf = false := by
  obtain ⟨a, r, har⟩ : ∃ a r, s.reverse = a :: r := by
    cases hr : s.reverse with
    | nil => exact absurd (List.reverse_eq_nil_iff.mp hr) hs
    | cons a r => exact ⟨a, r, rfl⟩
  have ha : a.isDigit = true := by
    have hmem : a ∈ s := by
      rw [← List.mem_reverse, har]
      exact List.mem_cons_self a r
    exact (List.all_eq_true.mp hall) a hmem
  have hne : (x == a) = false := by
    refine beq_eq_false_iff_ne.mpr ?_
    intro hxa
    rw [hxa, ha] at hx
    cases hx
  rw [endswith, hsuf, har]
  simp [List.isPrefixOf, hne]

/-! ## Memory-mode branch lemmas -/

lemma parse_memory_app_Ki (s : List Char) (v : ℚ) (h : parseFloat? s = some v) :
    _parse_memory (s ++ ['K', 'i']) = v / 1024 / 1024 := by
  unfold _parse_memory
  rw [if_neg (append_guard2 s 'K' 'i'), if_pos (endswith_append_self s ['K', 'i']),
    takeBut_append2]
  exact floatOr0_some h _

lemma parse_memory_app_Mi (s : List Char) (v : ℚ) (h : parseFloat? s = some v) :
    _parse_memory (s ++ ['M', 'i']) = v / 1024 := by
  have e1 : ¬ endswith (s ++ ['M', 'i']) ['K', 'i'] = true := by
    simp +decide [endswith, List.reverse_append, List.isPrefixOf]
  unfold _parse_memory
  rw [if_neg (append_guard2 s 'M' 'i'), if_neg e1,
    if_pos (endswith_append_self s ['M', 'i']), takeBut_append2]
  exact floatOr0_some h _

lemma parse_memory_app_Gi (s : List Char) (v : ℚ) (h : parseFloat? s = some v) :
    _parse_memory (s ++ ['G', 'i']) = v := by
  have e1 : ¬ endswith (s ++ ['G', 'i']) ['K', 'i'] = true := by
    simp +decide [endswith, List.reverse_append, List.isPrefixOf]
  have e2 : ¬ endswith (s ++ ['G', 'i']) ['M', 'i'] = true := by
    simp +decide [endswith, List.reverse_append, List.isPrefixOf]
  unfold _parse_memory
  rw [if_neg (append_guard2 s 'G' 'i'), if_neg e1, if_neg e2,
    if_pos (endswith_append_self s ['G', 'i']), takeBut_append2]
  exact floatOr0_some h _

lemma parse_memory_app_Ti (s : List Char) (v : ℚ) (h : parseFloat? s = some v) :
    _parse_memory (s ++ ['T', 'i']) = v * 1024 := by
  have e1 : ¬ endswith (s ++ ['T', 'i']) ['K', 'i'] = true := by
    simp +decide [endswith, List.reverse_append, List.isPrefixOf]
  have e2 : ¬ endswith (s ++ ['T', 'i']) ['M', 'i'] = true := by
    simp +decide [endswith, List.reverse_append, List.isPrefixOf]
  have e3 : ¬ endswith (s ++ ['T', 'i']) ['G', 'i'] = true := by
    simp +decide [endswith, List.reverse_append, List.isPrefixOf]
  unfold _parse_memory
  rw [if_neg (append_guard2 s 'T' 'i'), if_neg e1, if_neg e2, if_neg e3,
    if_pos (endswith_append_self s ['T', 'i']), takeBut_append2]
  exact floatOr0_some h _

lemma parse_memory_app_K (s : List Char) (v : ℚ) (h : parseFloat? s = some v) :
    _parse_memory (s ++ ['K']) = v / 1000 / 1024 := by
  have e1 : ¬ endswith (s ++ ['K']) ['K', 'i'] = true := by
    simp +decide [endswith, List.reverse_append, List.isPrefixOf]
  have e2 : ¬ endswith (s ++ ['K']) ['M', 'i'] = true := by
    simp +decide [endswith, List.reverse_append, List.isPrefixOf]
  have e3 : ¬ endswith (s ++ ['K']) ['G', 'i'] = true := by
    simp +decide [endswith, List.reverse_append, List.isPrefixOf]
  have e4 : ¬ endswith (s ++ ['K']) ['T', 'i'] = true := by
    simp +decide [endswith, List.reverse_append, List.isPrefixOf]
  unfold _parse_memory
  rw [if_neg (append_guard1 s 'K' (parseFloat?_ne_nil h)), if_neg e1, if_neg e2, if_neg e3,
    if_neg e4, if_pos (endswith_append_self s ['K']), takeBut_append1]
  exact floatOr0_some h _

lemma parse_memory_app_M (s : List Char) (v : ℚ) (h : parseFloat? s = some v) :
    _parse_memory (s ++ ['M']) = v / 1000 := by
  have e1 : ¬ endswith (s ++ ['M']) ['K', 'i'] = true := by
    simp +decide [endswith, List.reverse_append, List.isPrefixOf]
  have e2 : ¬ endswith (s ++ ['M']) ['M', 'i'] = true := by
    simp +decide [endswith, List.reverse_append, List.isPrefixOf]
  have e3 : ¬ endswith (s ++ ['M']) ['G', 'i'] = true := by
    simp +decide [endswith, List.reverse_append, List.isPrefixOf]
  have e4 : ¬ endswith (s ++ ['M']) ['T', 'i'] = true := by
    simp +decide [endswith, List.reverse_append, List.isPrefixOf]
  have e5 : ¬ endswith (s ++ ['M']) ['K'] = true := by
    simp +decide [endswith, List.reverse_append, List.isPrefixOf]
  unfold _parse_memory
  rw [if_neg (append_guard1 s 'M' (parseFloat?_ne_nil h)), if_neg e1, if_neg e2, if_neg e3,
    if_neg e4, if_neg e5, if_pos (endswith_append_self s ['M']), takeBut_append1]
  exact floatOr0_some h _

lemma parse_memory_app_G (s : List Char) (v : ℚ) (h : parseFloat? s = some v) :
    _parse_memory (s ++ ['G']) = v := by
  have e1 : ¬ endswith (s ++ ['G']) ['K', 'i'] = true := by
    simp +decide [endswith, List.reverse_append, List.isPrefixOf]
  have e2 : ¬ endswith (s ++ ['G']) ['M', 'i'] = true := by
    simp +decide [endswith, List.reverse_append, List.isPrefixOf]
  have e3 : ¬ endswith (s ++ ['G']) ['G', 'i'] = true := by
    simp +decide [endswith, List.reverse_append, List.isPrefixOf]
  have e4 : ¬ endswith (s ++ ['G']) ['T', 'i'] = true := by
    simp +decide [endswith, List.reverse_append, List.isPrefixOf]
  have e5 : ¬ endswith (s ++ ['G']) ['K'] = true := by
    simp +decide [endswith, List.reverse_append, List.isPrefixOf]
  have e6 : ¬ endswith (s ++ ['G']) ['M'] = true := by
    simp +decide [endswith, List.reverse_append, List.isPrefixOf]
  unfold _parse_memory
  rw [if_neg (append_guard1 s 'G' (parseFloat?_ne_nil h)), if_neg e1, if_neg e2, if_neg e3,
    if_neg e4, if_neg e5, if_neg e6, if_pos (endswith_append_self s ['G']), takeBut_append1]
  exact floatOr0_some h _

lemma parse_memory_raw_digits (s : List Char) (v : ℚ) (h : parseFloat? s = some v)
    (hall : s.all Char.isDigit = true) : _parse_memory s = v / 1024 / 1024 / 1024 := by
  have hs : s ≠ [] := parseFloat?_ne_nil h
  by_cases hz : s = ['0']
  · subst hz
    have h0 : parseFloat? ['0'] = some 0 := by
      norm_num +decide [parseFloat?, parseMantissa?, (by decide : digitsToNat ['0'] = 0)]
    rw [h0] at h
    injection h with hv
    rw [← hv]
    norm_num [_parse_memory]
  · have e1 := endswith_all_digits_false hs hall ['K', 'i'] rfl (by decide)
    have e2 := endswith_all_digits_false hs hall ['M', 'i'] rfl (by decide)
    have e3 := endswith_all_digits_false hs hall ['G', 'i'] rfl (by decide)
    have e4 := endswith_all_digits_false hs hall ['T', 'i'] rfl (by decide)
    have e5 := endswith_all_digits_false hs hall ['K'] rfl (by decide)
    have e6 := endswith_all_digits_false hs hall ['M'] rfl (by decide)
    have e7 := endswith_all_digits_false hs hall ['G'] rfl (by decide)
    unfold _parse_memory
    rw [if_neg (by simp [hs, hz]), if_neg (by simp [e1]), if_neg (by simp [e2]),
      if_neg (by simp [e3]), if_neg (by simp [e4]), if_neg (by simp [e5]),
      if_neg (by simp [e6]), if_neg (by simp [e7])]
    exact floatOr0_some h _

/-- C9: for every input string, Memory-mode parsing and Storage-mode parsing
return the same numeric value — the two separately maintained code paths
implement identical unit tables. -/
theorem c9_storage_equals_memory : ∀ s : List Char, _parse_memory s = _parse_storage s :=
  fun _ => rfl

/-- C4: for every memory-mode quantity token, `_parse_memory` returns a value
in GiB according to the table: `Ki` divides by 1024², `Mi` by 1024, `Gi`
as-is, `Ti` multiplies by 1024, `K` divides by 1000 then 1024, `M` by 1000,
`G` as-is, and an unsuffixed numeric value is raw bytes divided by 2^30;
in particular `1Gi`, `1024Mi`, `1048576Ki`, `1G` and `1073741824` all parse
to 1 GiB. -/
theorem c4_memory_mode_table (s : List Char) (v : ℚ) (h : parseFloat? s = some v) :
    _parse_memory (s ++ toL "Ki") = v / 1024 / 1024 ∧
    _parse_memory (s ++ toL "Mi") = v / 1024 ∧
    _parse_memory (s ++ toL "Gi") = v ∧
    _parse_memory (s ++ toL "Ti") = v * 1024 ∧
    _parse_memory (s ++ toL "K") = v / 1000 / 1024 ∧
    _parse_memory (s ++ toL "M") = v / 1000 ∧
    _parse_memory (s ++ toL "G") = v ∧
    (s.all Char.isDigit = true → _parse_memory s = v / 2 ^ 30) ∧
    _parse_memory (toL "1Gi") = 1 ∧ _parse_memory (toL "1024Mi") = 1 ∧
    _parse_memory (toL "1048576Ki") = 1 ∧ _parse_memory (toL "1G") = 1 ∧
    _parse_memory (toL "1073741824") = 1 := by
  refine ⟨parse_memory_app_Ki s v h, parse_memory_app_Mi s v h, parse_memory_app_Gi s v h,
    parse_memory_app_Ti s v h, parse_memory_app_K s v h, parse_memory_app_M s v h,
    parse_memory_app_G s v h, fun hall => ?_, ?_, ?_, ?_, ?_, ?_⟩
  · rw [parse_memory_raw_digits s v h hall, div_div, div_div]
    norm_num
  · norm_num +decide [_parse_memory, floatOr0, parseFloat?, parseMantissa?, endswith, takeBut,
      toL, List.isPrefixOf, (by decide : digitsToNat ['1'] = 1)]
  · norm_num +decide [_parse_memory, floatOr0, parseFloat?, parseMantissa?, endswith, takeBut,
      toL, List.isPrefixOf, (by decide : digitsToNat ['1', '0', '2', '4'] = 1024)]
  · norm_num +decide [_parse_memory, floatOr0, parseFloat?, parseMantissa?, endswith, takeBut,
      toL, List.isPrefixOf,
      (by decide : digitsToNat ['1', '0', '4', '8', '5', '7', '6'] = 1048576)]
  · norm_num +decide [_parse_memory, floatOr0, parseFloat?, parseMantissa?, endswith, takeBut,
      toL, List.isPrefixOf, (by decide : digitsToNat ['1'] = 1)]
  · norm_num +decide [_parse_memory, floatOr0, parseFloat?, parseMantissa?, endswith, takeBut,
      toL, List.isPrefixOf,
      (by decide :
        digitsToNat ['1', '0', '7', '3', '7', '4', '1', '8', '2', '4'] = 1073741824)]

/-- Witness for C4 at `s = "1"`, `v = 1`. -/
theorem c4_memory_mode_table_witness :
    parseFloat? (toL "1") = some 1 ∧ _parse_memory (toL "1" ++ toL "Ki") = 1 / 1024 / 1024 := by
  have h1 : parseFloat? (toL "1") = some 1 := by
    norm_num +decide [parseFloat?, parseMantissa?, toL, (by decide : digitsToNat ['1'] = 1)]
  exact ⟨h1, (c4_memory_mode_table (toL "1") 1 h1).1⟩

/-! ## Count-mode branch lemmas -/

lemma parse_qty_app_k (s : List Char) (v : ℚ) (h : parseFloat? s = some v) :
    _parse_quantity (s ++ ['k']) = pyInt (v * 1000) := by
  unfold _parse_quantity
  rw [if_neg (append_guard1 s 'k' (parseFloat?_ne_nil h)),
    if_pos (endswith_append_self s ['k']), takeBut_append1]
  exact intOr0_some h _

lemma parse_qty_app_m (s : List Char) (v : ℚ) (h : parseFloat? s = some v) :
    _parse_quantity (s ++ ['m']) = pyInt (v / 1000) := by
  have e1 : ¬ endswith (s ++ ['m']) ['k'] = true := by
    simp +decide [endswith, List.reverse_append, List.isPrefixOf]
  unfold _parse_quantity
  rw [if_neg (append_guard1 s 'm' (parseFloat?_ne_nil h)), if_neg e1,
    if_pos (endswith_append_self s ['m']), takeBut_append1]
  exact intOr0_some h _

lemma parse_qty_app_Ki (s : List Char) (v : ℚ) (h : parseFloat? s = some v) :
    _parse_quantity (s ++ ['K', 'i']) = pyInt (v * 1024) := by
  have e1 : ¬ endswith (s ++ ['K', 'i']) ['k'] = true := by
    simp +decide [endswith, List.reverse_append, List.isPrefixOf]
  have e2 : ¬ endswith (s ++ ['K', 'i']) ['m'] = true := by
    simp +decide [endswith, List.reverse_append, List.isPrefixOf]
  unfold _parse_quantity
  rw [if_neg (append_guard2 s 'K' 'i'), if_neg e1, if_neg e2,
    if_pos (endswith_append_self s ['K', 'i']), takeBut_append2]
  exact intOr0_some h _

lemma parse_qty_app_Mi (s : List Char) (v : ℚ) (h : parseFloat? s = some v) :
    _parse_quantity (s ++ ['M', 'i']) = pyInt v := by
  have e1 : ¬ endswith (s ++ ['M', 'i']) ['k'] = true := by
    simp +decide [endswith, List.reverse_append, List.isPrefixOf]
  have e2 : ¬ endswith (s ++ ['M', 'i']) ['m'] = true := by
    simp +decide [endswith, List.reverse_append, List.isPrefixOf]
  have e3 : ¬ endswith (s ++ ['M', 'i']) ['K', 'i'] = true := by
    simp +decide [endswith, List.reverse_append, List.isPrefixOf]
  unfold _parse_quantity
  rw [if_neg (append_guard2 s 'M' 'i'), if_neg e1, if_neg e2, if_neg e3,
    if_pos (endswith_append_self s ['M', 'i']), takeBut_append2]
  exact intOr0_some h _

lemma parse_qty_app_Gi (s : List Char) (v : ℚ) (h : parseFloat? s = some v) :
    _parse_quantity (s ++ ['G', 'i']) = pyInt (v * 1024) := by
  have e1 : ¬ endswith (s ++ ['G', 'i']) ['k'] = true := by
    simp +decide [endswith, List.reverse_append, List.isPrefixOf]
  have e2 : ¬ endswith (s ++ ['G', 'i']) ['m'] = true := by
    simp +decide [endswith, List.reverse_append, List.isPrefixOf]
  have e3 : ¬ endswith (s ++ ['G', 'i']) ['K', 'i'] = true := by
    simp +decide [endswith, List.reverse_append, List.isPrefixOf]
  have e4 : ¬ endswith (s ++ ['G', 'i']) ['M', 'i'] = true := by
    simp +decide [endswith, List.reverse_append, List.isPrefixOf]
  unfold _parse_quantity
  rw [if_neg (append_guard2 s 'G' 'i'), if_neg e1, if_neg e2, if_neg e3, if_neg e4,
    if_pos (endswith_append_self s ['G', 'i']), takeBut_append2]
  exact intOr0_some h _

lemma parse_qty_app_Ti (s : List Char) (v : ℚ) (h : parseFloat? s = some v) :
    _parse_quantity (s ++ ['T', 'i']) = pyInt (v * 1024 * 1024) := by
  have e1 : ¬ endswith (s ++ ['T', 'i']) ['k'] = true := by
    simp +decide [endswith, List.reverse_append, List.isPrefixOf]
  have e2 : ¬ endswith (s ++ ['T', 'i']) ['m'] = true := by
    simp +decide [endswith, List.reverse_append, List.isPrefixOf]
  have e3 : ¬ endswith (s ++ ['T', 'i']) ['K', 'i'] = true := by
    simp +decide [endswith, List.reverse_append, List.isPrefixOf]
  have e4 : ¬ endswith (s ++ ['T', 'i']) ['M', 'i'] = true := by
    simp +decide [endswith, List.reverse_append, List.isPrefixOf]
  have e5 : ¬ endswith (s ++ ['T', 'i']) ['G', 'i'] = true := by
    simp +decide [endswith, List.reverse_append, List.isPrefixOf]
  unfold _parse_quantity
  rw [if_neg (append_guard2 s 'T' 'i'), if_neg e1, if_neg e2, if_neg e3, if_neg e4, if_neg e5,
    if_pos (endswith_append_self s ['T', 'i']), takeBut_append2]
  exact intOr0_some h _

lemma parse_qty_app_K (s : List Char) (v : ℚ) (h : parseFloat? s = some v) :
    _parse_quantity (s ++ ['K']) = pyInt (v * 1000) := by
  have e1 : ¬ endswith (s ++ ['K']) ['k'] = true := by
    simp +decide [endswith, List.reverse_append, List.isPrefixOf]
  have e2 : ¬ endswith (s ++ ['K']) ['m'] = true := by
    simp +decide [endswith, List.reverse_append, List.isPrefixOf]
  have e3 : ¬ endswith (s ++ ['K']) ['K', 'i'] = true := by
    simp +decide [endswith, List.reverse_append, List.isPrefixOf]
  have e4 : ¬ endswith (s ++ ['K']) ['M', 'i'] = true := by
    simp +decide [endswith, List.reverse_append, List.isPrefixOf]
  have e5 : ¬ endswith (s ++ ['K']) ['G', 'i'] = true := by
    simp +decide [endswith, List.reverse_append, List.isPrefixOf]
  have e6 : ¬ endswith (s ++ ['K']) ['T', 'i'] = true := by
    simp +decide [endswith, List.reverse_append, List.isPrefixOf]
  unfold _parse_quantity
  rw [if_neg (append_guard1 s 'K' (parseFloat?_ne_nil h)), if_neg e1, if_neg e2, if_neg e3,
    if_neg e4, if_neg e5, if_neg e6, if_pos (endswith_append_self s ['K']), takeBut_append1]
  exact intOr0_some h _

lemma parse_qty_app_M (s : List Char) (v : ℚ) (h : parseFloat? s = some v) :
    _parse_quantity (s ++ ['M']) = pyInt (v * 1000 * 1000) := by
  have e1 : ¬ endswith (s ++ ['M']) ['k'] = true := by
    simp +decide [endswith, List.reverse_append, List.isPrefixOf]
  have e2 : ¬ endswith (s ++ ['M']) ['m'] = true := by
    simp +decide [endswith, List.reverse_append, List.isPrefixOf]
  have e3 : ¬ endswith (s ++ ['M']) ['K', 'i'] = true := by
    simp +decide [endswith, List.reverse_append, List.isPrefixOf]
  have e4 : ¬ endswith (s ++ ['M']) ['M', 'i'] = true := by
    simp +decide [endswith, List.reverse_append, List.isPrefixOf]
  have e5 : ¬ endswith (s ++ ['M']) ['G', 'i'] = true := by
    simp +decide [endswith, List.reverse_append, List.isPrefixOf]
  have e6 : ¬ endswith (s ++ ['M']) ['T', 'i'] = true := by
    simp +decide [endswith, List.reverse_append, List.isPrefixOf]
  have e7 : ¬ endswith (s ++ ['M']) ['K'] = true := by
    simp +decide [endswith, List.reverse_append, List.isPrefixOf]
  unfold _parse_quantity
  rw [if_neg (append_guard1 s 'M' (parseFloat?_ne_nil h)), if_neg e1, if_neg e2, if_neg e3,
    if_neg e4, if_neg e5, if_neg e6, if_neg e7, if_pos (endswith_append_self s ['M']),
    takeBut_append1]
  exact intOr0_some h _

lemma parse_qty_app_G (s : List Char) (v : ℚ) (h : parseFloat? s = some v) :
    _parse_quantity (s ++ ['G']) = pyInt (v * 1000 * 1000 * 1000) := by
  have e1 : ¬ endswith (s ++ ['G']) ['k'] = true := by
    simp +decide [endswith, List.reverse_append, List.isPrefixOf]
  have e2 : ¬ endswith (s ++ ['G']) ['m'] = true := by
    simp +decide [endswith, List.reverse_append, List.isPrefixOf]
  have e3 : ¬ endswith (s ++ ['G']) ['K', 'i'] = true := by
    simp +decide [endswith, List.reverse_append, List.isPrefixOf]
  have e4 : ¬ endswith (s ++ ['G']) ['M', 'i'] = true := by
    simp +decide [endswith, List.reverse_append, List.isPrefixOf]
  have e5 : ¬ endswith (s ++ ['G']) ['G', 'i'] = true := by
    simp +decide [endswith, List.reverse_append, List.isPrefixOf]
  have e6 : ¬ endswith (s ++ ['G']) ['T', 'i'] = true := by
    simp +decide [endswith, List.reverse_append, List.isPrefixOf]
  have e7 : ¬ endswith (s ++ ['G']) ['K'] = true := by
    simp +decide [endswith, List.reverse_append, List.isPrefixOf]
  have e8 : ¬ endswith (s ++ ['G']) ['M'] = true := by
    simp +decide [endswith, List.reverse_append, List.isPrefixOf]
  unfold _parse_quantity
  rw [if_neg (append_guard1 s 'G' (parseFloat?_ne_nil h)), if_neg e1, if_neg e2, if_neg e3,
    if_neg e4, if_neg e5, if_neg e6, if_neg e7, if_neg e8,
    if_pos (endswith_append_self s ['G']), takeBut_append1]
  exact intOr0_some h _

/-- C3 counterexample: the claim's table says `Mi` multiplies by 1024², so
`"2Mi"` would parse to 2097152; the source multiplies `Mi` tokens by 1, and
`_parse_quantity "2Mi" = 2 ≠ 2 * 1024 * 1024`. -/
theorem c3_count_mode_counterexample :
    _parse_quantity (toL "2Mi") = 2 ∧ _parse_quantity (toL "2Mi") ≠ 2 * 1024 * 1024 := by
  have h2 : _parse_quantity (toL "2Mi") = 2 := by
    norm_num +decide [_parse_quantity, intOr0, pyInt, parseFloat?, parseMantissa?, endswith,
      takeBut, toL, List.isPrefixOf, (by decide : digitsToNat ['2'] = 2)]
  refine ⟨h2, ?_⟩
  rw [h2]
  decide

/-- C3 (amended): for every count-mode quantity token, `_parse_quantity`
applies the suffix table `k`,`K` ×10³, `M` ×10⁶, `G` ×10⁹, `m` ×10⁻³,
`Ki` ×1024, `Mi` ×1, `Gi` ×1024, `Ti` ×1024², with the result truncated to
an integer; in particular `2k → 2000`, `2Ki → 2048`, `5m → 0`. -/
theorem c3_count_mode_table (s : List Char) (v : ℚ) (h : parseFloat? s = some v) :
    _parse_quantity (s ++ toL "k") = pyInt (v * 1000) ∧
    _parse_quantity (s ++ toL "K") = pyInt (v * 1000) ∧
    _parse_quantity (s ++ toL "M") = pyInt (v * 1000 * 1000) ∧
    _parse_quantity (s ++ toL "G") = pyInt (v * 1000 * 1000 * 1000) ∧
    _parse_quantity (s ++ toL "m") = pyInt (v / 1000) ∧
    _parse_quantity (s ++ toL "Ki") = pyInt (v * 1024) ∧
    _parse_quantity (s ++ toL "Mi") = pyInt v ∧
    _parse_quantity (s ++ toL "Gi") = pyInt (v * 1024) ∧
    _parse_quantity (s ++ toL "Ti") = pyInt (v * 1024 * 1024) ∧
    _parse_quantity (toL "2k") = 2000 ∧ _parse_quantity (toL "2Ki") = 2048 ∧
    _parse_quantity (toL "5m") = 0 := by
  refine ⟨parse_qty_app_k s v h, parse_qty_app_K s v h, parse_qty_app_M s v h,
    parse_qty_app_G s v h, parse_qty_app_m s v h, parse_qty_app_Ki s v h,
    parse_qty_app_Mi s v h, parse_qty_app_Gi s v h, parse_qty_app_Ti s v h, ?_, ?_, ?_⟩
  · norm_num +decide [_parse_quantity, intOr0, pyInt, parseFloat?, parseMantissa?, endswith,
      takeBut, toL, List.isPrefixOf, (by decide : digitsToNat ['2'] = 2)]
  · norm_num +decide [_parse_quantity, intOr0, pyInt, parseFloat?, parseMantissa?, endswith,
      takeBut, toL, List.isPrefixOf, (by decide : digitsToNat ['2'] = 2)]
  · norm_num +decide [_parse_quantity, intOr0, pyInt, parseFloat?, parseMantissa?, endswith,
      takeBut, toL, List.isPrefixOf, (by decide : digitsToNat ['5'] = 5)]

/-- Witness for C3 at `s = "2"`, `v = 2`. -/
theorem c3_count_mode_table_witness :
    parseFloat? (toL "2") = some 2 ∧ _parse_quantity (toL "2" ++ toL "k") = pyInt (2 * 1000) := by
  have h2 : parseFloat? (toL "2") = some 2 := by
    norm_num +decide [parseFloat?, parseMantissa?, toL, (by decide : digitsToNat ['2'] = 2)]
  exact ⟨h2, (c3_count_mode_table (toL "2") 2 h2).1⟩

set_option maxHeartbeats 1000000 in
/-- C5: every parsing mode is a total function of the input string, and a
token whose numeric portion does not parse as a float — including the empty
string and unknown-suffix garbage — yields zero instead of an error. -/
theorem c5_parsing_total (s : List Char) :
    (parseFloat? (cpuNumericPart s) = none → _parse_cpu s = 0) ∧
    (parseFloat? (memNumericPart s) = none → _parse_memory s = 0) ∧
    (parseFloat? (storageNumericPart s) = none → _parse_storage s = 0) ∧
    (parseFloat? (countNumericPart s) = none → _parse_quantity s = 0) ∧
    _parse_cpu [] = 0 ∧ _parse_memory [] = 0 ∧ _parse_storage [] = 0 ∧
    _parse_quantity [] = 0 := by
  refine ⟨?_, ?_, ?_, ?_, rfl, rfl, rfl, rfl⟩
  · intro h
    unfold cpuNumericPart at h
    unfold _parse_cpu
    split_ifs at h ⊢ <;> first | rfl | exact floatOr0_none h _
  · intro h
    unfold memNumericPart at h
    unfold _parse_memory
    split_ifs at h ⊢ <;> first | rfl | exact floatOr0_none h _
  · intro h
    unfold storageNumericPart at h
    unfold _parse_storage
    split_ifs at h ⊢ <;> first | rfl | exact floatOr0_none h _
  · intro h
    unfold countNumericPart at h
    unfold _parse_quantity
    split_ifs at h ⊢ <;> first | rfl | exact intOr0_none h _

/-- Witness for C5 at `s = "garbage"`. -/
theorem c5_parsing_total_witness :
    parseFloat? (cpuNumericPart (toL "garbage")) = none ∧ _parse_cpu (toL "garbage") = 0 ∧
    parseFloat? (memNumericPart (toL "garbage")) = none ∧ _parse_memory (toL "garbage") = 0 ∧
    parseFloat? (storageNumericPart (toL "garbage")) = none ∧
    _parse_storage (toL "garbage") = 0 ∧
    parseFloat? (countNumericPart (toL "garbage")) = none ∧
    _parse_quantity (toL "garbage") = 0 := by
  have h1 : parseFloat? (cpuNumericPart (toL "garbage")) = none := by decide
  have h2 : parseFloat? (memNumericPart (toL "garbage")) = none := by decide
  have h3 : parseFloat? (storageNumericPart (toL "garbage")) = none := by decide
  have h4 : parseFloat? (countNumericPart (toL "garbage")) = none := by decide
  exact ⟨h1, (c5_parsing_total (toL "garbage")).1 h1,
    h2, (c5_parsing_total (toL "garbage")).2.1 h2,
    h3, (c5_parsing_total (toL "garbage")).2.2.1 h3,
    h4, (c5_parsing_total (toL "garbage")).2.2.2.1 h4⟩

/-- C6 counterexample: on the single-segment all-numeric pod name `"7"` the
claim's rule ("if the last segment is purely numeric, the key is everything
before that segment") yields the empty key, while the source returns the
full pod name. -/
theorem c6_workload_key_counterexample :
    _extract_workload_name (toL "7") ≠ claimedWorkloadKey (toL "7") := by decide

/-- C6 (amended): `_extract_workload_name` splits the pod name on `-`; if
there are at least two segments and the last segment is purely numeric, the
key is everything before that segment; otherwise the key is the full pod
name.  In particular `web-0 ↦ web` and `app-7f9c5d-x2j4k` maps to itself. -/
theorem c6_workload_key :
    (∀ s : List Char, _extract_workload_name s = amendedWorkloadKey s) ∧
    _extract_workload_name (toL "web-0") = toL "web" ∧
    _extract_workload_name (toL "app-7f9c5d-x2j4k") = toL "app-7f9c5d-x2j4k" := by
  refine ⟨?_, by decide, by decide⟩
  intro s
  unfold _extract_workload_name amendedWorkloadKey
  by_cases h1 : 2 ≤ (splitOn '-' s).length <;>
    by_cases h2 : isdigitStr ((splitOn '-' s).getLastD []) = true <;>
      simp [h1, h2]

lemma aggStep_eq_specAggStep (replicas : List (List Char × ℕ)) (acc : ℚ × ℚ)
    (e : List Char × WL) : aggStep replicas acc e = specAggStep replicas acc e := by
  unfold aggStep specAggStep specAllowed
  by_cases h : (dget replicas e.1).getD 0 = 0
  · have hn : ¬ 3 * (sortDesc e.2.cpu).length / 2 < (sortDesc e.2.cpu).length := by omega
    simp [h, hn]
  · simp [h]

/-- C1: the replica-aware aggregator coincides with the spec's algorithm —
per workload, sort the CPU and Memory peaks descending independently, let
`allowed = floor(expected × 1.5)` (defaulting to the observed pod count
when the expected replica count is unknown or zero, in which case nothing
is discarded), keep the top `allowed` peaks per dimension when the
observed pod count exceeds `allowed`, and sum across workloads; in
particular a workload with expected replicas 2 and CPU peaks
`[1, 1, 1, 0.9, 0.9]` contributes `1 + 1 + 1 = 3` to the CPU total. -/
theorem c1_replica_aware_aggregation :
    (∀ (wp : List (List Char × WL)) (replicas : List (List Char × ℕ)),
      _aggregate_by_replicas wp replicas = specAggregate wp replicas) ∧
    _aggregate_by_replicas
      [(toL "web", ⟨[toL "web-1", toL "web-2", toL "web-3", toL "web-4", toL "web-5"],
        [1, 1, 1, 9 / 10, 9 / 10], [0, 0, 0, 0, 0]⟩)]
      [(toL "web", 2)] = (3, 0) := by
  constructor
  · intro wp replicas
    unfold _aggregate_by_replicas specAggregate
    exact List.foldl_ext _ _ (0, 0) (fun acc e _ => aggStep_eq_specAggStep replicas acc e)
  · norm_num +decide [_aggregate_by_replicas, aggStep, sortDesc, List.insertionSort,
      List.orderedInsert, dget, toL]

lemma splitOnAux_chars (sep : Char) (l : List Char) : ∀ (acc p : List Char),
    p ∈ splitOnAux sep l acc → ∀ c ∈ p, c ∈ l ∨ c ∈ acc := by
  induction l with
  | nil =>
    intro acc p hp c hc
    simp [splitOnAux] at hp
    subst hp
    right
    simpa using hc
  | cons a rest ih =>
    intro acc p hp c hc
    unfold splitOnAux at hp
    by_cases h : (a == sep) = true
    · rw [if_pos h] at hp
      rcases List.mem_cons.mp hp with h1 | h1
      · subst h1
        right
        simpa using hc
      · rcases ih [] p h1 c hc with h2 | h2
        · exact Or.inl (List.mem_cons_of_mem _ h2)
        · exact absurd h2 (List.not_mem_nil c)
    · rw [if_neg h] at hp
      rcases ih (a :: acc) p hp c hc with h2 | h2
      · exact Or.inl (List.mem_cons_of_mem _ h2)
      · rcases List.mem_cons.mp h2 with h3 | h3
        · exact Or.inl (h3 ▸ List.mem_cons_self a rest)
        · exact Or.inr h3

lemma splitOn_chars (sep : Char) (s p : List Char) (hp : p ∈ splitOn sep s) :
    ∀ c ∈ p, c ∈ s := by
  intro c hc
  rcases splitOnAux_chars sep s [] p hp c hc with h | h
  · exact h
  · exact absurd h (List.not_mem_nil c)

lemma joinSep_chars (sep : Char) (ps : List (List Char)) (c : Char) (hc : c ∈ joinSep sep ps) :
    c = sep ∨ ∃ p ∈ ps, c ∈ p := by
  induction ps with
  | nil => simp [joinSep] at hc
  | cons p rest ih =>
    cases rest with
    | nil =>
      right
      exact ⟨p, List.mem_cons_self p [], by simpa [joinSep] using hc⟩
    | cons q rest2 =>
      simp only [joinSep] at hc
      rcases List.mem_append.mp hc with h | h
      · exact Or.inr ⟨p, List.mem_cons_self _ _, h⟩
      · rcases List.mem_cons.mp h with h2 | h2
        · exact Or.inl h2
        · rcases ih h2 with h3 | ⟨p2, hp2, hc2⟩
          · exact Or.inl h3
          · exact Or.inr ⟨p2, List.mem_cons_of_mem _ hp2, hc2⟩

lemma extract_no_slash (p : List Char) (hp : ('/' : Char) ∉ p) :
    ('/' : Char) ∉ _extract_workload_name p := by
  unfold _extract_workload_name
  dsimp only
  split_ifs with h1 h2
  · intro hc
    rcases joinSep_chars '-' _ '/' hc with h | ⟨q, hq, hcq⟩
    · exact absurd h (by decide)
    · have hq2 : q ∈ splitOn '-' p := (List.dropLast_sublist _).subset hq
      exact hp (splitOn_chars '-' p q hq2 '/' hcq)
  · exact hp
  · exact hp

lemma dget_dinsert {κ α : Type} [DecidableEq κ] (k q : κ) (v : α) (d : List (κ × α)) :
    dget (dinsert k v d) q = if q = k then some v else dget d q := by
  induction d with
  | nil => simp [dinsert, dget]
  | cons hd rest ih =>
    obtain ⟨k2, v2⟩ := hd
    by_cases h : k = k2
    · subst h
      by_cases hq : q = k <;> simp [dinsert, dget, hq]
    · by_cases hq : q = k2
      · subst hq
        have : ¬ q = k := fun hh => h (hh ▸ rfl)
        simp [dinsert, dget, h, this, Ne.symm h]
      · simp [dinsert, dget, h, hq, ih]

lemma mem_dinsert {κ α : Type} [DecidableEq κ] (k : κ) (v : α) (d : List (κ × α)) (e : κ × α)
    (he : e ∈ dinsert k v d) : e ∈ d ∨ e.1 = k := by
  induction d with
  | nil =>
    simp [dinsert] at he
    subst he
    exact Or.inr rfl
  | cons hd rest ih =>
    obtain ⟨k2, v2⟩ := hd
    by_cases h : k = k2
    · rw [dinsert, if_pos h] at he
      rcases List.mem_cons.mp he with h1 | h1
      · subst h1
        exact Or.inr h.symm
      · exact Or.inl (List.mem_cons_of_mem _ h1)
    · rw [dinsert, if_neg h] at he
      rcases List.mem_cons.mp he with h1 | h1
      · exact Or.inl (h1 ▸ List.mem_cons_self _ _)
      · rcases ih h1 with h2 | h2
        · exact Or.inl (List.mem_cons_of_mem _ h2)
        · exact Or.inr h2

lemma dget_none_of_all {κ α : Type} [DecidableEq κ] (P : κ → Prop) (d : List (κ × α))
    (hall : ∀ e ∈ d, P e.1) (k : κ) (hk : ¬ P k) : dget d k = none := by
  induction d with
  | nil => rfl
  | cons e rest ih =>
    obtain ⟨k2, v2⟩ := e
    have hP : P k2 := hall _ (List.mem_cons_self _ _)
    have hne : ¬ k = k2 := fun hh => hk (hh ▸ hP)
    rw [dget, if_neg hne]
    exact ih fun e2 he2 => hall e2 (List.mem_cons_of_mem _ he2)

lemma replicas_fold_all (pre : List Char) (hpre : ('/' : Char) ∈ pre)
    (items : List (List Char × ℕ)) :
    ∀ (init : List (List Char × ℕ)), (∀ e ∈ init, ('/' : Char) ∈ e.1) →
    ∀ e ∈ items.foldl (fun m x => if x.1 = [] then m else dinsert (pre ++ x.1) x.2 m) init,
      ('/' : Char) ∈ e.1 := by
  induction items with
  | nil => intro init hinit e he; exact hinit e he
  | cons x rest ih =>
    intro init hinit e he
    rw [List.foldl_cons] at he
    refine ih _ ?_ e he
    intro e2 he2
    by_cases hx : x.1 = []
    · rw [if_pos hx] at he2
      exact hinit _ he2
    · rw [if_neg hx] at he2
      rcases mem_dinsert _ _ _ _ he2 with h1 | h1
      · exact hinit _ h1
      · rw [h1]
        exact List.mem_append_left _ hpre

lemma get_workload_replicas_slash (ds ss : List (List Char × ℕ)) :
    ∀ e ∈ get_workload_replicas ds ss, ('/' : Char) ∈ e.1 := by
  unfold get_workload_replicas
  refine replicas_fold_all (toL "ss/") (by decide) ss _ ?_
  refine replicas_fold_all (toL "deploy/") (by decide) ds [] ?_
  intro e he
  exact absurd he (List.not_mem_nil e)

lemma mem_peaks_fold {α : Type} (val : List Char × ℚ → α) (res : List (List Char × ℚ)) :
    ∀ (init : List (List Char × α)) (e : List Char × α),
    e ∈ res.foldl (fun d x => if x.1 = [] then d else dinsert x.1 (val x) d) init →
    e ∈ init ∨ ∃ x ∈ res, e.1 = x.1 := by
  induction res with
  | nil => intro init e he; exact Or.inl he
  | cons x rest ih =>
    intro init e he
    rw [List.foldl_cons] at he
    rcases ih _ e he with h1 | ⟨x2, hx2, hx3⟩
    · by_cases hx : x.1 = []
      · rw [if_pos hx] at h1
        exact Or.inl h1
      · rw [if_neg hx] at h1
        rcases mem_dinsert _ _ _ _ h1 with h2 | h2
        · exact Or.inl h2
        · exact Or.inr ⟨x, List.mem_cons_self _ _, h2⟩
    · exact Or.inr ⟨x2, List.mem_cons_of_mem _ hx2, hx3⟩

lemma podCpuPeaks_keys (cpuRes : List (List Char × ℚ)) (e : List Char × ℚ)
    (he : e ∈ podCpuPeaks cpuRes) : ∃ x ∈ cpuRes, e.1 = x.1 := by
  rcases mem_peaks_fold (fun x => x.2) cpuRes [] e he with h | h
  · exact absurd h (List.not_mem_nil e)
  · exact h

lemma mem_wlAppend (w pod : List Char) (c m : ℚ) :
    ∀ (wp : List (List Char × WL)) (e : List Char × WL), e ∈ wlAppend w pod c m wp →
      e.1 = w ∨ ∃ e2 ∈ wp, e.1 = e2.1 := by
  intro wp
  induction wp with
  | nil =>
    intro e he
    simp [wlAppend] at he
    subst he
    exact Or.inl rfl
  | cons hd rest ih =>
    intro e he
    obtain ⟨k, d⟩ := hd
    by_cases h : w = k
    · rw [wlAppend, if_pos h] at he
      rcases List.mem_cons.mp he with h1 | h1
      · subst h1
        exact Or.inl h.symm
      · exact Or.inr ⟨e, List.mem_cons_of_mem _ h1, rfl⟩
    · rw [wlAppend, if_neg h] at he
      rcases List.mem_cons.mp he with h1 | h1
      · exact Or.inr ⟨(k, d), List.mem_cons_self _ _, by rw [h1]⟩
      · rcases ih e h1 with h2 | ⟨e2, he2, he21⟩
        · exact Or.inl h2
        · exact Or.inr ⟨e2, List.mem_cons_of_mem _ he2, he21⟩

lemma mem_foldl_wlAppend (memPeaks : List (List Char × ℚ)) (pods : List (List Char × ℚ)) :
    ∀ (init : List (List Char × WL)) (e : List Char × WL),
    e ∈ pods.foldl
      (fun wp x =>
        wlAppend (_extract_workload_name x.1) x.1 x.2 ((dget memPeaks x.1).getD 0) wp) init →
    (∃ e2 ∈ init, e.1 = e2.1) ∨ ∃ x ∈ pods, e.1 = _extract_workload_name x.1 := by
  induction pods with
  | nil => intro init e he; exact Or.inl ⟨e, he, rfl⟩
  | cons x rest ih =>
    intro init e he
    rw [List.foldl_cons] at he
    rcases ih _ e he with ⟨e2, he2, he21⟩ | ⟨x2, hx2, hx21⟩
    · rcases mem_wlAppend _ _ _ _ _ e2 he2 with h1 | ⟨e3, he3, he31⟩
      · exact Or.inr ⟨x, List.mem_cons_self _ _, he21.trans h1⟩
      · exact Or.inl ⟨e3, he3, he21.trans he31⟩
    · exact Or.inr ⟨x2, List.mem_cons_of_mem _ hx2, hx21⟩

lemma groups_keys (cpuRes memRes : List (List Char × ℚ)) (e : List Char × WL)
    (he : e ∈ _get_pod_peaks_by_workload cpuRes memRes) :
    ∃ x ∈ podCpuPeaks cpuRes, e.1 = _extract_workload_name x.1 := by
  unfold _get_pod_peaks_by_workload at he
  rcases mem_foldl_wlAppend (podMemPeaks memRes) (podCpuPeaks cpuRes) [] e he with
    ⟨e2, he2, _⟩ | h
  · exact absurd he2 (List.not_mem_nil e2)
  · exact h

lemma sortDesc_sum (l : List ℚ) : (sortDesc l).sum = l.sum :=
  (List.perm_insertionSort _ l).sum_eq

lemma aggStep_miss (replicas : List (List Char × ℕ)) (acc : ℚ × ℚ) (e : List Char × WL)
    (h : dget replicas e.1 = none) :
    aggStep replicas acc e = (acc.1 + e.2.cpu.sum, acc.2 + e.2.mem.sum) := by
  unfold aggStep
  rw [h]
  have hn : ¬ 3 * (sortDesc e.2.cpu).length / 2 < (sortDesc e.2.cpu).length := by omega
  simp [hn, sortDesc_sum]

lemma aggregate_fold_miss (replicas : List (List Char × ℕ)) :
    ∀ (wp : List (List Char × WL)), (∀ e ∈ wp, dget replicas e.1 = none) →
    ∀ acc : ℚ × ℚ,
      wp.foldl (aggStep replicas) acc = (acc.1 + sumCpuAll wp, acc.2 + sumMemAll wp) := by
  intro wp
  induction wp with
  | nil => intro _ acc; simp [sumCpuAll, sumMemAll]
  | cons e rest ih =>
    intro h acc
    rw [List.foldl_cons, aggStep_miss replicas acc e (h e (List.mem_cons_self _ _)),
      ih (fun e2 he2 => h e2 (List.mem_cons_of_mem _ he2))]
    simp only [sumCpuAll, sumMemAll, List.map_cons, List.sum_cons, Prod.mk.injEq]
    constructor <;> ring

/-- C2: when the workload groups come from `_get_pod_peaks_by_workload` over
pod names containing no `/` and the replica mapping comes from
`get_workload_replicas` (whose keys all start with `deploy/` or `ss/`,
hence contain `/`), every expected-replica lookup misses, `allowed` falls
back to the observed pod count, and the aggregate equals the untruncated
per-dimension sums over all observed pods. -/
theorem c2_replica_lookup_always_misses (cpuRes memRes : List (List Char × ℚ))
    (ds ss : List (List Char × ℕ)) (h : ∀ e ∈ cpuRes, ('/' : Char) ∉ e.1) :
    (∀ p : List Char, ('/' : Char) ∉ p → ('/' : Char) ∉ _extract_workload_name p) ∧
    (∀ e ∈ _get_pod_peaks_by_workload cpuRes memRes,
      dget (get_workload_replicas ds ss) e.1 = none) ∧
    _aggregate_by_replicas (_get_pod_peaks_by_workload cpuRes memRes)
        (get_workload_replicas ds ss) =
      (sumCpuAll (_get_pod_peaks_by_workload cpuRes memRes),
        sumMemAll (_get_pod_peaks_by_workload cpuRes memRes)) := by
  have key_miss : ∀ e ∈ _get_pod_peaks_by_workload cpuRes memRes,
      dget (get_workload_replicas ds ss) e.1 = none := by
    intro e he
    obtain ⟨x, hx, hxe⟩ := groups_keys cpuRes memRes e he
    obtain ⟨x2, hx2, hx21⟩ := podCpuPeaks_keys cpuRes x hx
    have hns : ('/' : Char) ∉ x.1 := by rw [hx21]; exact h x2 hx2
    have hne : ('/' : Char) ∉ e.1 := by rw [hxe]; exact extract_no_slash _ hns
    exact dget_none_of_all (fun k => ('/' : Char) ∈ k) _
      (get_workload_replicas_slash ds ss) _ hne
  refine ⟨fun p hp => extract_no_slash p hp, key_miss, ?_⟩
  have := aggregate_fold_miss (get_workload_replicas ds ss) _ key_miss (0, 0)
  simpa [_aggregate_by_replicas] using this

/-- Witness for C2 on a concrete namespace: pods `web-1`, `web-2` and a
deployment named `web`. -/
theorem c2_replica_lookup_always_misses_witness :
    (∀ e ∈ ([(toL "web-1", (1 : ℚ)), (toL "web-2", 2)] : List (List Char × ℚ)),
      ('/' : Char) ∉ e.1) ∧
    _aggregate_by_replicas
        (_get_pod_peaks_by_workload [(toL "web-1", 1), (toL "web-2", 2)] [(toL "web-1", 1)])
        (get_workload_replicas [(toL "web", 3)] []) =
      (sumCpuAll (_get_pod_peaks_by_workload [(toL "web-1", 1), (toL "web-2", 2)]
          [(toL "web-1", 1)]),
        sumMemAll (_get_pod_peaks_by_workload [(toL "web-1", 1), (toL "web-2", 2)]
          [(toL "web-1", 1)])) := by
  have h : ∀ e ∈ ([(toL "web-1", (1 : ℚ)), (toL "web-2", 2)] : List (List Char × ℚ)),
      ('/' : Char) ∉ e.1 := by decide
  exact ⟨h, (c2_replica_lookup_always_misses [(toL "web-1", 1), (toL "web-2", 2)]
    [(toL "web-1", 1)] [(toL "web", 3)] [] h).2.2⟩

lemma podMemPeaks_append (memRes : List (List Char × ℚ)) (p : List Char) (v : ℚ)
    (q : List Char) (hq : q ≠ p) :
    dget (podMemPeaks (memRes ++ [(p, v)])) q = dget (podMemPeaks memRes) q := by
  unfold podMemPeaks
  rw [List.foldl_append, List.foldl_cons, List.foldl_nil]
  dsimp only
  by_cases hp : p = []
  · rw [if_pos hp]
  · rw [if_neg hp, dget_dinsert, if_neg hq]

lemma wlAppend_pods (w pod : List Char) (c m : ℚ) :
    ∀ (wp : List (List Char × WL)) (e : List Char × WL), e ∈ wlAppend w pod c m wp →
    ∀ q ∈ e.2.pods, q = pod ∨ ∃ e2 ∈ wp, q ∈ e2.2.pods := by
  intro wp
  induction wp with
  | nil =>
    intro e he q hq
    simp [wlAppend] at he
    subst he
    simp at hq
    exact Or.inl hq
  | cons hd rest ih =>
    intro e he q hq
    obtain ⟨k, d⟩ := hd
    by_cases h : w = k
    · rw [wlAppend, if_pos h] at he
      rcases List.mem_cons.mp he with h1 | h1
      · subst h1
        rcases List.mem_append.mp hq with h2 | h2
        · exact Or.inr ⟨(k, d), List.mem_cons_self _ _, h2⟩
        · simp at h2
          exact Or.inl h2
      · exact Or.inr ⟨e, List.mem_cons_of_mem _ h1, hq⟩
    · rw [wlAppend, if_neg h] at he
      rcases List.mem_cons.mp he with h1 | h1
      · subst h1
        exact Or.inr ⟨(k, d), List.mem_cons_self _ _, hq⟩
      · rcases ih e h1 q hq with h2 | ⟨e2, he2, hq2⟩
        · exact Or.inl h2
        · exact Or.inr ⟨e2, List.mem_cons_of_mem _ he2, hq2⟩

lemma mem_foldl_wlAppend_pods (memPeaks : List (List Char × ℚ)) (pods : List (List Char × ℚ)) :
    ∀ (init : List (List Char × WL)) (e : List Char × WL),
    e ∈ pods.foldl
      (fun wp x =>
        wlAppend (_extract_workload_name x.1) x.1 x.2 ((dget memPeaks x.1).getD 0) wp) init →
    ∀ q ∈ e.2.pods, (∃ e2 ∈ init, q ∈ e2.2.pods) ∨ ∃ x ∈ pods, q = x.1 := by
  induction pods with
  | nil => intro init e he q hq; exact Or.inl ⟨e, he, hq⟩
  | cons x rest ih =>
    intro init e he q hq
    rw [List.foldl_cons] at he
    rcases ih _ e he q hq with ⟨e2, he2, hq2⟩ | ⟨x2, hx2, h2⟩
    · rcases wlAppend_pods _ _ _ _ _ e2 he2 q hq2 with h1 | ⟨e3, he3, hq3⟩
      · exact Or.inr ⟨x, List.mem_cons_self _ _, h1⟩
      · exact Or.inl ⟨e3, he3, hq3⟩
    · exact Or.inr ⟨x2, List.mem_cons_of_mem _ hx2, h2⟩

/-- C10: a pod that appears only in the Memory query result (and in no CPU
series) is excluded from every workload group, and its memory peak
contributes nothing to the totals of `get_namespace_usage_accurate`. -/
theorem c10_memory_only_pod_excluded (ns : List Char) (cpuRes memRes : List (List Char × ℚ))
    (replicas : List (List Char × ℕ)) (p : List Char) (v : ℚ)
    (h : ∀ e ∈ cpuRes, e.1 ≠ p) :
    get_namespace_usage_accurate ns cpuRes (memRes ++ [(p, v)]) replicas =
      get_namespace_usage_accurate ns cpuRes memRes replicas ∧
    ∀ e ∈ _get_pod_peaks_by_workload cpuRes (memRes ++ [(p, v)]), p ∉ e.2.pods := by
  have hgroups : _get_pod_peaks_by_workload cpuRes (memRes ++ [(p, v)]) =
      _get_pod_peaks_by_workload cpuRes memRes := by
    unfold _get_pod_peaks_by_workload
    apply List.foldl_ext
    intro wp x hx
    obtain ⟨x2, hx2, hx21⟩ := podCpuPeaks_keys cpuRes x hx
    have hne : x.1 ≠ p := by rw [hx21]; exact h x2 hx2
    rw [podMemPeaks_append memRes p v x.1 hne]
  constructor
  · unfold get_namespace_usage_accurate
    rw [hgroups]
  · intro e he hp
    unfold _get_pod_peaks_by_workload at he
    rcases mem_foldl_wlAppend_pods (podMemPeaks (memRes ++ [(p, v)])) (podCpuPeaks cpuRes) []
        e he p hp with ⟨e2, he2, _⟩ | ⟨x, hx, hx1⟩
    · exact absurd he2 (List.not_mem_nil e2)
    · obtain ⟨x2, hx2, hx21⟩ := podCpuPeaks_keys cpuRes x hx
      exact h x2 hx2 (hx21.symm.trans hx1.symm)

/-- Witness for C10: pod `ghost` has a memory series but no CPU series. -/
theorem c10_memory_only_pod_excluded_witness :
    (∀ e ∈ ([(toL "web-1", (1 : ℚ))] : List (List Char × ℚ)), e.1 ≠ toL "ghost") ∧
    get_namespace_usage_accurate (toL "ns") [(toL "web-1", 1)] ([] ++ [(toL "ghost", 5)]) [] =
      get_namespace_usage_accurate (toL "ns") [(toL "web-1", 1)] [] [] := by
  have h : ∀ e ∈ ([(toL "web-1", (1 : ℚ))] : List (List Char × ℚ)), e.1 ≠ toL "ghost" := by
    decide
  exact ⟨h, (c10_memory_only_pod_excluded (toL "ns") [(toL "web-1", 1)] [] [] (toL "ghost")
    5 h).1⟩

/-- C7: with a quota present and a positive cap the rate is
`min(usage / cap × 100, 100)`; with a present quota whose cap is zero the
rate is `0`; with no quota both rates are absent (`none`), distinguishing
"no quota configured" from "quota is zero".  In particular usage 50 against
cap 100 gives 50 and usage 150 against cap 100 is capped at 100. -/
theorem c7_rate_calculation (u : ProjectUsage) (q : Quota) :
    (0 < q.cpu_quota → (calculate_rates_one (some q) u).cpu_rate =
      some (min (u.cpu_usage / q.cpu_quota * 100) 100)) ∧
    (q.cpu_quota = 0 → (calculate_rates_one (some q) u).cpu_rate = some 0) ∧
    (0 < q.memory_quota → (calculate_rates_one (some q) u).memory_rate =
      some (min (u.memory_usage / q.memory_quota * 100) 100)) ∧
    (q.memory_quota = 0 → (calculate_rates_one (some q) u).memory_rate = some 0) ∧
    (calculate_rates_one none u).cpu_rate = none ∧
    (calculate_rates_one none u).memory_rate = none ∧
    (calculate_rates_one (some ⟨"cid", "p", 100, 100⟩)
      ⟨"p", none, 50, 0, none, none⟩).cpu_rate = some 50 ∧
    (calculate_rates_one (some ⟨"cid", "p", 100, 100⟩)
      ⟨"p", none, 150, 0, none, none⟩).cpu_rate = some 100 := by
  refine ⟨fun h => ?_, fun h => ?_, fun h => ?_, fun h => ?_,
    by simp [calculate_rates_one], by simp [calculate_rates_one],
    by norm_num [calculate_rates_one], by norm_num [calculate_rates_one]⟩ <;>
  · unfold calculate_rates_one
    dsimp only
    split_ifs <;> simp_all

/-- Witness for C7 at usage 50, cap 100. -/
theorem c7_rate_calculation_witness :
    (0 : ℚ) < 100 ∧
    (calculate_rates_one (some ⟨"cid", "p", 100, 100⟩)
      ⟨"p", none, 50, 0, none, none⟩).cpu_rate = some (min ((50 : ℚ) / 100 * 100) 100) := by
  have h : (0 : ℚ) < 100 := by norm_num
  exact ⟨h,
    (c7_rate_calculation ⟨"p", none, 50, 0, none, none⟩ ⟨"cid", "p", 100, 100⟩).1 h⟩

lemma totalCpu_cons (u : ProjectUsage) (l : List ProjectUsage) :
    totalCpu (u :: l) = u.cpu_usage + totalCpu l := by simp [totalCpu]

lemma totalMem_cons (u : ProjectUsage) (l : List ProjectUsage) :
    totalMem (u :: l) = u.memory_usage + totalMem l := by simp [totalMem]

lemma mergeOne_totals (d : List (String × ProjectUsage)) (u : ProjectUsage) :
    totalCpu ((mergeOne d u).map (fun e => e.2)) =
      totalCpu (d.map (fun e => e.2)) + u.cpu_usage ∧
    totalMem ((mergeOne d u).map (fun e => e.2)) =
      totalMem (d.map (fun e => e.2)) + u.memory_usage := by
  induction d with
  | nil => simp [mergeOne, totalCpu, totalMem]
  | cons hd rest ih =>
    obtain ⟨k, v⟩ := hd
    by_cases h : u.project_name = k
    · simp only [mergeOne, if_pos h, List.map_cons, totalCpu_cons, totalMem_cons, puAdd]
      constructor <;> ring
    · simp only [mergeOne, if_neg h, List.map_cons, totalCpu_cons, totalMem_cons]
      refine ⟨?_, ?_⟩
      · rw [ih.1]; ring
      · rw [ih.2]; ring

lemma mergeOne_not_found (d : List (String × ProjectUsage)) (u : ProjectUsage)
    (h : ∀ e ∈ d, e.1 ≠ u.project_name) : mergeOne d u = d ++ [(u.project_name, u)] := by
  induction d with
  | nil => rfl
  | cons hd rest ih =>
    obtain ⟨k, v⟩ := hd
    have hne : ¬ u.project_name = k :=
      fun hh => h (k, v) (List.mem_cons_self _ _) hh.symm
    simp only [mergeOne, if_neg hne, List.cons_append]
    rw [ih fun e he => h e (List.mem_cons_of_mem _ he)]

lemma fold_mergeOne_totals (usages : List ProjectUsage) :
    ∀ d : List (String × ProjectUsage),
      totalCpu ((usages.foldl mergeOne d).map (fun e => e.2)) =
        totalCpu (d.map (fun e => e.2)) + totalCpu usages ∧
      totalMem ((usages.foldl mergeOne d).map (fun e => e.2)) =
        totalMem (d.map (fun e => e.2)) + totalMem usages := by
  induction usages with
  | nil => intro d; simp [totalCpu, totalMem]
  | cons u rest ih =>
    intro d
    rw [List.foldl_cons]
    refine ⟨?_, ?_⟩
    · rw [(ih (mergeOne d u)).1, (mergeOne_totals d u).1, totalCpu_cons]; ring
    · rw [(ih (mergeOne d u)).2, (mergeOne_totals d u).2, totalMem_cons]; ring

lemma mergeOne_names (d : List (String × ProjectUsage)) (u : ProjectUsage)
    (hd : ∀ e ∈ d, e.1 = e.2.project_name) :
    ∀ e ∈ mergeOne d u, e.1 = e.2.project_name := by
  induction d with
  | nil =>
    intro e he
    simp [mergeOne] at he
    subst he
    rfl
  | cons hd2 rest ih =>
    obtain ⟨k, v⟩ := hd2
    intro e he
    by_cases h : u.project_name = k
    · simp only [mergeOne, if_pos h] at he
      rcases List.mem_cons.mp he with h1 | h1
      · subst h1
        have hkv := hd (k, v) (List.mem_cons_self _ _)
        simpa [puAdd] using hkv
      · exact hd e (List.mem_cons_of_mem _ h1)
    · simp only [mergeOne, if_neg h] at he
      rcases List.mem_cons.mp he with h1 | h1
      · subst h1
        exact hd _ (List.mem_cons_self _ _)
      · exact ih (fun e2 he2 => hd e2 (List.mem_cons_of_mem _ he2)) e h1

lemma mergeOne_keys_cases (d : List (String × ProjectUsage)) (u : ProjectUsage) :
    (u.project_name ∈ d.map (fun e => e.1) ∧
      (mergeOne d u).map (fun e => e.1) = d.map (fun e => e.1)) ∨
    (u.project_name ∉ d.map (fun e => e.1) ∧
      (mergeOne d u).map (fun e => e.1) = d.map (fun e => e.1) ++ [u.project_name]) := by
  induction d with
  | nil => right; exact ⟨by simp, rfl⟩
  | cons hd rest ih =>
    obtain ⟨k, v⟩ := hd
    by_cases h : u.project_name = k
    · left
      refine ⟨by simp [h], ?_⟩
      simp [mergeOne, if_pos h]
    · rcases ih with ⟨h1, h2⟩ | ⟨h1, h2⟩
      · left
        refine ⟨by simp [h1], ?_⟩
        simp [mergeOne, if_neg h, h2]
      · right
        refine ⟨by simp [h, h1], ?_⟩
        simp [mergeOne, if_neg h, h2]

lemma fold_mergeOne_invariant (usages : List ProjectUsage) :
    ∀ d : List (String × ProjectUsage), (∀ e ∈ d, e.1 = e.2.project_name) →
      (d.map (fun e => e.1)).Nodup →
      (∀ e ∈ usages.foldl mergeOne d, e.1 = e.2.project_name) ∧
      ((usages.foldl mergeOne d).map (fun e => e.1)).Nodup := by
  induction usages with
  | nil => intro d h1 h2; exact ⟨h1, h2⟩
  | cons u rest ih =>
    intro d h1 h2
    rw [List.foldl_cons]
    refine ih _ (mergeOne_names d u h1) ?_
    rcases mergeOne_keys_cases d u with ⟨_, hk⟩ | ⟨hnm, hk⟩
    · rw [hk]; exact h2
    · rw [hk]
      simp [List.nodup_append, h2, hnm]

lemma dinsert_not_found {κ α : Type} [DecidableEq κ] (k : κ) (v : α) (d : List (κ × α))
    (h : ∀ e ∈ d, e.1 ≠ k) : dinsert k v d = d ++ [(k, v)] := by
  induction d with
  | nil => rfl
  | cons hd rest ih =>
    obtain ⟨k2, v2⟩ := hd
    have hne : ¬ k = k2 := fun hh => h (k2, v2) (List.mem_cons_self _ _) hh.symm
    simp only [dinsert, if_neg hne, List.cons_append]
    rw [ih fun e he => h e (List.mem_cons_of_mem _ he)]

lemma dictFromUsages_eq (l : List ProjectUsage) :
    ∀ d : List (String × ProjectUsage),
      (∀ u ∈ l, ∀ e ∈ d, e.1 ≠ u.project_name) →
      (l.map (fun u => u.project_name)).Nodup →
      l.foldl (fun d u => dinsert u.project_name u d) d =
        d ++ l.map (fun u => (u.project_name, u)) := by
  induction l with
  | nil => intro d _ _; simp
  | cons u rest ih =>
    intro d hd hnd
    rw [List.foldl_cons, dinsert_not_found _ _ _ (hd u (List.mem_cons_self _ _)),
      ih (d ++ [(u.project_name, u)]) ?_ (List.Nodup.of_cons hnd)]
    · simp
    · intro u2 hu2 e he
      rcases List.mem_append.mp he with h1 | h1
      · exact hd u2 (List.mem_cons_of_mem _ hu2) e h1
      · simp only [List.mem_singleton] at h1
        subst h1
        intro hcontra
        have hu2mem : u2.project_name ∈ rest.map (fun x => x.project_name) :=
          List.mem_map_of_mem _ hu2
        rw [← hcontra] at hu2mem
        exact (List.nodup_cons.mp hnd).1 hu2mem

lemma dictFromUsages_map_snd (l : List ProjectUsage)
    (h : (l.map (fun u => u.project_name)).Nodup) :
    (dictFromUsages l).map (fun e => e.2) = l := by
  unfold dictFromUsages
  rw [dictFromUsages_eq l [] (fun u _ e he => absurd he (List.not_mem_nil e)) h]
  simp only [List.nil_append, List.map_map]
  exact List.map_id' l

lemma map_name_of_inv (d : List (String × ProjectUsage))
    (h : ∀ e ∈ d, e.1 = e.2.project_name) :
    d.map (fun e => e.2.project_name) = d.map (fun e => e.1) := by
  induction d with
  | nil => rfl
  | cons e rest ih =>
    simp only [List.map_cons]
    rw [← h e (List.mem_cons_self _ _), ih fun x hx => h x (List.mem_cons_of_mem _ hx)]

lemma cacheAdd_dget (cache : List (String × List ProjectUsage)) (date : String)
    (usages : List ProjectUsage) :
    dget (cacheAdd cache date usages) date =
      some ((usages.foldl mergeOne (dictFromUsages ((dget cache date).getD []))).map
        (fun e => e.2)) := by
  unfold cacheAdd
  rw [dget_dinsert, if_pos rfl]

/-- C8: `MemoryReportCache.add` adds an incoming record's CPU and Memory to
an existing record with the same (date, project) key rather than replacing
it, inserts a new record when none exists, and calling it twice with the
same date and usage list leaves stored totals exactly double those after
one call. -/
theorem c8_merge_usage_accumulates (cache : List (String × List ProjectUsage)) (date : String)
    (usages : List ProjectUsage) (h : dget cache date = none) :
    totalCpu ((dget (cacheAdd (cacheAdd cache date usages) date usages) date).getD []) =
      2 * totalCpu usages ∧
    totalMem ((dget (cacheAdd (cacheAdd cache date usages) date usages) date).getD []) =
      2 * totalMem usages ∧
    totalCpu ((dget (cacheAdd cache date usages) date).getD []) = totalCpu usages ∧
    totalMem ((dget (cacheAdd cache date usages) date).getD []) = totalMem usages ∧
    (∀ (d : List (String × ProjectUsage)) (u : ProjectUsage),
      totalCpu ((mergeOne d u).map (fun e => e.2)) =
        totalCpu (d.map (fun e => e.2)) + u.cpu_usage ∧
      totalMem ((mergeOne d u).map (fun e => e.2)) =
        totalMem (d.map (fun e => e.2)) + u.memory_usage) ∧
    (∀ (d : List (String × ProjectUsage)) (u : ProjectUsage),
      (∀ e ∈ d, e.1 ≠ u.project_name) → mergeOne d u = d ++ [(u.project_name, u)]) := by
  have hinv := fold_mergeOne_invariant usages []
    (fun e he => absurd he (List.not_mem_nil e)) (by simp)
  have hL1 : dget (cacheAdd cache date usages) date =
      some ((usages.foldl mergeOne []).map (fun e => e.2)) := by
    rw [cacheAdd_dget, h]
    rfl
  have hL1cpu : totalCpu ((usages.foldl mergeOne []).map (fun e => e.2)) = totalCpu usages := by
    have := (fold_mergeOne_totals usages []).1
    simpa [totalCpu] using this
  have hL1mem : totalMem ((usages.foldl mergeOne []).map (fun e => e.2)) = totalMem usages := by
    have := (fold_mergeOne_totals usages []).2
    simpa [totalMem] using this
  have hL1nodup : (((usages.foldl mergeOne []).map (fun e => e.2)).map
      (fun u => u.project_name)).Nodup := by
    rw [List.map_map]
    have hmn : ((usages.foldl mergeOne []).map (fun e => e.2.project_name)) =
        (usages.foldl mergeOne []).map (fun e => e.1) := map_name_of_inv _ hinv.1
    simpa [Function.comp] using hmn ▸ hinv.2
  have hL2 : dget (cacheAdd (cacheAdd cache date usages) date usages) date =
      some ((usages.foldl mergeOne
        (dictFromUsages ((usages.foldl mergeOne []).map (fun e => e.2)))).map
          (fun e => e.2)) := by
    rw [cacheAdd_dget, hL1]
    rfl
  have hsnd := dictFromUsages_map_snd _ hL1nodup
  refine ⟨?_, ?_, ?_, ?_, mergeOne_totals, mergeOne_not_found⟩
  · rw [hL2]
    have h2 := (fold_mergeOne_totals usages
      (dictFromUsages ((usages.foldl mergeOne []).map (fun e => e.2)))).1
    rw [hsnd, hL1cpu] at h2
    simpa [h2] using by ring
  · rw [hL2]
    have h2 := (fold_mergeOne_totals usages
      (dictFromUsages ((usages.foldl mergeOne []).map (fun e => e.2)))).2
    rw [hsnd, hL1mem] at h2
    simpa [h2] using by ring
  · rw [hL1]
    simpa using hL1cpu
  · rw [hL1]
    simpa using hL1mem

/-- Witness for C8 on the empty cache with one usage record. -/
theorem c8_merge_usage_accumulates_witness :
    dget ([] : List (String × List ProjectUsage)) "d" = none ∧
    totalCpu ((dget (cacheAdd (cacheAdd [] "d" [⟨"p", none, 1, 2, none, none⟩]) "d"
        [⟨"p", none, 1, 2, none, none⟩]) "d").getD []) =
      2 * totalCpu [⟨"p", none, 1, 2, none, none⟩] := by
  have h : dget ([] : List (String × List ProjectUsage)) "d" = none := rfl
  exact ⟨h, (c8_merge_usage_accumulates [] "d" [⟨"p", none, 1, 2, none, none⟩] h).1⟩
